import Mathlib

/-!
Verification development for the ScheduleMe repository
(`src/app/core/AvailMatrBuilder.py` and `src/app/core/solver.py`).

The Python sources are shallowly embedded here:

* time-of-day values (fractional hours, e.g. `7.25` for 07:15) become `Rat`;
* `ast.literal_eval` as used by the ingestor is modelled by
  `literalEvalApprox`, restricted to the literal shapes the ingestor can
  meet: a bracketed list of quoted strings / bare integer tokens, a bare
  quoted string (which Python would iterate character by character), and a
  bare unsigned integer (which Python would fail to iterate); every other
  input is treated as a parse failure (`none`), which the ingestor catches;
* a Python exception that the source does NOT catch (e.g. the `ValueError`
  of `datetime.strptime` inside `_hhmm_to_float`, or the `TypeError` of
  iterating an `int`) is modelled by an `Option`-valued function returning
  `none`;
* pandas rows become association lists of `(column, Cell)`; a missing
  column read through `row.get(col, "")` yields the default `Cell.str ""`,
  and a non-string cell value (e.g. NaN) is `Cell.nonstr`;
* Python dicts become insertion-ordered association lists with
  overwrite-on-existing-key semantics (`dictInsert`); writing through a
  missing key (`availability_matrix[student]`, a `KeyError`) is `none`;
* the CP-SAT model built by `solver.py` is embedded as a decidable
  satisfaction predicate `modelSat` on valuations of the model's
  variables, one conjunct per `model.Add`/`AddMaxEquality`/`AddMinEquality`
  call, with the variable bounds of `NewIntVar`; the objective expression
  handed to `model.Minimize` is `objectiveVal`.
-/

/-- Python `round` on a rational value: nearest integer, ties to even
(banker's rounding), as used in `int(round((end - start) * SCALE))`. -/
def pyRound (q : Rat) : Int :=
  let n := q.floor
  let frac := q - (n : Rat)
  if frac < 1/2 then n
  else if 1/2 < frac then n + 1
  else if n % 2 = 0 then n else n + 1

/-- One catalog shift: `(sid, day_abbr, start_hour_float, end_hour_float,
staff_required)` of `AvailMatrBuilder.SHIFTS`. -/
structure Shift where
  sid : String
  day : String
  start : Rat
  stop : Rat
  required : Nat
deriving DecidableEq, Repr

/-- The fixed weekly catalog `SHIFTS` of `AvailMatrBuilder.py`. -/
def SHIFTS : List Shift := [
  ⟨"S1",  "Mon", 7.25, 9,  3⟩,
  ⟨"S2",  "Mon", 9,    12, 4⟩,
  ⟨"S3",  "Mon", 12,   15, 4⟩,
  ⟨"S4",  "Mon", 15,   17, 4⟩,
  ⟨"S5",  "Mon", 17,   19, 3⟩,
  ⟨"S6",  "Tue", 7.25, 9,  3⟩,
  ⟨"S7",  "Tue", 9,    12, 4⟩,
  ⟨"S8",  "Tue", 12,   15, 4⟩,
  ⟨"S9",  "Tue", 15,   17, 4⟩,
  ⟨"S10", "Tue", 17,   19, 3⟩,
  ⟨"S11", "Wed", 7.25, 9,  3⟩,
  ⟨"S12", "Wed", 9,    12, 4⟩,
  ⟨"S13", "Wed", 12,   15, 4⟩,
  ⟨"S14", "Wed", 15,   17, 4⟩,
  ⟨"S15", "Wed", 17,   19, 3⟩,
  ⟨"S16", "Thu", 7.25, 9,  3⟩,
  ⟨"S17", "Thu", 9,    12, 4⟩,
  ⟨"S18", "Thu", 12,   15, 4⟩,
  ⟨"S19", "Thu", 15,   17, 4⟩,
  ⟨"S20", "Thu", 17,   19, 3⟩,
  ⟨"S21", "Fri", 7.25, 9,  3⟩,
  ⟨"S22", "Fri", 9,    12, 4⟩,
  ⟨"S23", "Fri", 12,   15, 4⟩,
  ⟨"S24", "Fri", 15,   17, 4⟩,
  ⟨"S25", "Sat", 10,   14, 2⟩,
  ⟨"S26", "Sun", 10,   14, 2⟩]

/-- The dict `DAY_ABBR_TO_COL` of `AvailMatrBuilder.py`. -/
def DAY_ABBR_TO_COL : List (String × String) := [
  ("Mon", "MONDAY"), ("Tue", "TUESDAY"), ("Wed", "WEDNESDAY"),
  ("Thu", "THURSDAY"), ("Fri", "FRIDAY"), ("Sat", "SATURDAY"),
  ("Sun", "SUNDAY")]

/-- Column name for a day abbreviation (`DAY_ABBR_TO_COL[d]`; every day of
the catalog is a key of the dict, so the default is never reached there). -/
def dayCol (d : String) : String :=
  ((DAY_ABBR_TO_COL.find? (fun p => p.1 == d)).map Prod.snd).getD ""

/-- A cell value as the ingestor can see it: a string, or a non-string
value such as pandas NaN. -/
inductive Cell where
  | str (s : String)
  | nonstr
deriving DecidableEq, Repr

/-- An element of a Python list literal, as far as `_parse_ranges` looks at
it: a string, or any non-string value (skipped by the `isinstance` test). -/
inductive PyItem where
  | pstr (s : String)
  | pother
deriving DecidableEq, Repr

/-- The value of a Python literal as far as the ingestor iterates it: a
list of items (also a bare string, iterated character by character), or a
non-iterable value such as an `int`. -/
inductive PyVal where
  | plist (items : List PyItem)
  | pint
deriving DecidableEq, Repr

/-- Drop leading space characters. -/
def skipWs : List Char → List Char
  | [] => []
  | c :: rest => if c = ' ' then skipWs rest else c :: rest

/-- Read characters up to (and consuming) the closing quote `q`;
`none` on an unterminated string. Escape sequences are not modelled. -/
def takeStr (q : Char) : List Char → Option (String × List Char)
  | [] => none
  | c :: rest =>
    if c = q then some ("", rest)
    else
      match takeStr q rest with
      | some (s, r) => some (String.singleton c ++ s, r)
      | none => none

/-- Consume a run of decimal digits. -/
def takeDigits : List Char → List Char
  | [] => []
  | c :: rest => if c.isDigit then takeDigits rest else c :: rest

/-- One element of a list literal: a quoted string, or a bare digit run
(an `int`, a non-string item). -/
def parseElem : List Char → Option (PyItem × List Char)
  | [] => none
  | c :: rest =>
    if c = '\'' then
      match takeStr '\'' rest with
      | some (s, r) => some (PyItem.pstr s, r)
      | none => none
    else if c = '"' then
      match takeStr '"' rest with
      | some (s, r) => some (PyItem.pstr s, r)
      | none => none
    else if c.isDigit then some (PyItem.pother, takeDigits rest)
    else none

/-- Comma-separated elements up to the closing bracket, fuel-bounded. -/
def parseElems : Nat → List Char → List PyItem → Option (List PyItem × List Char)
  | 0, _, _ => none
  | Nat.succ fuel, cs, acc =>
    match skipWs cs with
    | ']' :: rest => some (acc.reverse, rest)
    | cs2 =>
      match parseElem cs2 with
      | none => none
      | some (item, r) =>
        match skipWs r with
        | ',' :: rest2 => parseElems fuel rest2 (item :: acc)
        | ']' :: rest2 => some ((item :: acc).reverse, rest2)
        | _ => none

/-- Modelled restriction of `ast.literal_eval` to the shapes the ingestor
can meet: a bracketed list of quoted strings and bare unsigned-integer
tokens, a bare quoted string, or a bare unsigned integer. Any other input
is a parse failure (`none`), which `_parse_ranges` catches. A bare quoted
string evaluates to the string, which the ingestor's `for` loop iterates
character by character, hence the `plist` of singletons. -/
def literalEvalApprox (s : String) : Option PyVal :=
  match (s.trim).data with
  | [] => none
  | '[' :: rest =>
    match parseElems (rest.length + 1) rest [] with
    | some (items, r) => if skipWs r = [] then some (PyVal.plist items) else none
    | none => none
  | '\'' :: rest =>
    match takeStr '\'' rest with
    | some (str, r) =>
      if skipWs r = [] then
        some (PyVal.plist (str.data.map (fun c => PyItem.pstr (String.singleton c))))
      else none
    | none => none
  | '"' :: rest =>
    match takeStr '"' rest with
    | some (str, r) =>
      if skipWs r = [] then
        some (PyVal.plist (str.data.map (fun c => PyItem.pstr (String.singleton c))))
      else none
    | none => none
  | cs => if cs.all Char.isDigit then some PyVal.pint else none

/-- A numeric field of `strptime`: one or two digits, at most `hi`. -/
def parseTimeField (s : String) (hi : Nat) : Option Nat :=
  if s.length ≠ 0 ∧ s.length ≤ 2 ∧ s.data.all Char.isDigit = true then
    let n := s.foldl (fun acc c => acc * 10 + (c.toNat - Char.toNat '0')) 0
    if n ≤ hi then some n else none
  else none

/-- Function `_hhmm_to_float` of `AvailMatrBuilder.py`: strip, parse as
`"%H:%M:%S"`, return `hour + minute/60`. A string `strptime` rejects makes
it raise `ValueError`, modelled as `none`; the caller does not catch it. -/
def _hhmm_to_float (s : String) : Option Rat :=
  match (s.trim).splitOn ":" with
  | [h, m, sec] =>
    match parseTimeField h 23, parseTimeField m 59, parseTimeField sec 61 with
    | some hh, some mm, some _ => some ((hh : Rat) + (mm : Rat) / 60)
    | _, _, _ => none
  | _ => none

/-- The item loop of `_parse_ranges`, with the accumulator `out` explicit:
a non-string item or an item without `"-"` is skipped (`continue`); an
item with `"-"` is split at the first `"-"` and both halves go through
`_hhmm_to_float`, whose failure is an uncaught exception (`none`). -/
def parseItemsAux : List (Rat × Rat) → List PyItem → Option (List (Rat × Rat))
  | acc, [] => some acc
  | acc, it :: rest =>
    match it with
    | PyItem.pother => parseItemsAux acc rest
    | PyItem.pstr rng =>
      if rng.contains '-' then
        match rng.splitOn "-" with
        | [] => none
        | h :: t =>
          match _hhmm_to_float h, _hhmm_to_float (String.intercalate "-" t) with
          | some a, some b => parseItemsAux (acc ++ [(a, b)]) rest
          | _, _ => none
      else parseItemsAux acc rest

/-- Function `_parse_ranges` of `AvailMatrBuilder.py`. A non-string cell gives `[]`;
a cell whose content `ast.literal_eval` rejects gives `[]` (the only
`try/except` of the file); iterating a non-iterable literal, or a time
string `strptime` rejects, is an uncaught exception (`none`). -/
def _parse_ranges (c : Cell) : Option (List (Rat × Rat)) :=
  match c with
  | Cell.nonstr => some []
  | Cell.str s =>
    match literalEvalApprox s with
    | none => some []
    | some PyVal.pint => none
    | some (PyVal.plist items) => parseItemsAux [] items

/-- The skip test of the item loop:
`not isinstance(rng, str) or "-" not in rng`. -/
def skippedItem : PyItem → Bool
  | PyItem.pother => true
  | PyItem.pstr s => !(s.contains '-')

/-- The availability test of `load_input_from_excel`:
`any(a <= start and end <= b for (a, b) in parsed)`. -/
def is_available (parsed : List (Rat × Rat)) (start stop : Rat) : Bool :=
  parsed.any (fun ab => decide (ab.1 ≤ start) && decide (stop ≤ ab.2))

/-- Helper for `pyTitle`: the boolean tracks whether the previous
character was alphabetic. -/
def pyTitleAux : Bool → List Char → List Char
  | _, [] => []
  | prevAlpha, c :: rest =>
    if c.isAlpha then
      (if prevAlpha then c.toLower else c.toUpper) :: pyTitleAux true rest
    else c :: pyTitleAux false rest

/-- Python `str.title()` (restricted to ASCII letters): the first
letter of each maximal alphabetic run is uppercased, the rest lowercased. -/
def pyTitle (s : String) : String := String.mk (pyTitleAux false s.data)

/-- The name normalization applied to every name:
`.strip().title()` (`str.strip` modelled by `String.trim`). -/
def normalizeName (s : String) : String := pyTitle s.trim

/-- One row of the input table: the `STUDENT NAME` field (`none` for a
missing/NaN name) and the remaining columns as an association list. -/
structure Row where
  name : Option String
  cells : List (String × Cell)
deriving DecidableEq, Repr

/-- The read `row.get(col, "")`: the cell under `col`, defaulting to the empty
string when the column is absent. -/
def rowGet (r : Row) (col : String) : Cell :=
  match r.cells.find? (fun p => p.1 == col) with
  | some p => p.2
  | none => Cell.str ""

/-- The expression `str(row[name_col]).strip().title()` of the per-row loop. A NaN name
passes through `str` as `"nan"` and normalizes to `"Nan"`. -/
def rowStudent (r : Row) : String :=
  match r.name with
  | some n => normalizeName n
  | none => "Nan"

/-- The student list:
`df[name_col].dropna().astype(str).str.strip().str.title().tolist()` —
one entry per row whose name is present, normalized, duplicates kept. -/
def studentsOf (rows : List Row) : List String :=
  (rows.filterMap (fun r => r.name)).map normalizeName

/-- The availability entry computed for one row and one shift:
`int(any(a <= start and end <= b for (a, b) in parsed))`, where an
uncaught parse exception propagates (`none`). -/
def availEntry (r : Row) (d : String) (start stop : Rat) : Option Nat :=
  (_parse_ranges (rowGet r (dayCol d))).map
    (fun parsed => if is_available parsed start stop then 1 else 0)

/-- Python dict assignment `m[k] = v`: overwrite in place when the key
exists, else append (insertion order preserved). -/
def dictInsert {α β : Type} [BEq α] (m : List (α × β)) (k : α) (v : β) :
    List (α × β) :=
  if m.any (fun p => p.1 == k) then
    m.map (fun p => if p.1 == k then (k, v) else p)
  else m ++ [(k, v)]

/-- The shift key `(day_abbr, start, end)` used throughout the sources. -/
abbrev ShiftId : Type := String × Rat × Rat

/-- The key of a catalog shift. -/
def sidOf (sh : Shift) : ShiftId := (sh.day, sh.start, sh.stop)

/-- The availability matrix: `{student: {(day, start, end): 0 or 1}}`. -/
abbrev Matr : Type := List (String × List (ShiftId × Nat))

/-- The store `availability_matrix[student][sid] = val`: a `KeyError` (`none`) when
`student` is not a key of the outer dict. -/
def dictSetNested (m : Matr) (k1 : String) (k2 : ShiftId) (v : Nat) :
    Option Matr :=
  if m.any (fun p => p.1 == k1) then
    some (m.map (fun p => if p.1 == k1 then (k1, dictInsert p.2 k2 v) else p))
  else none

/-- The comprehension of `availability_matrix`: duplicate names
collapse to one key. -/
def emptyMatrix (students : List String) : Matr :=
  students.foldl (fun acc s => dictInsert acc s []) []

/-- The inner loop of `load_input_from_excel` for one row: for every
catalog shift, parse that day's cell and store the 0/1 entry under the
row's normalized name. -/
def applyRow (shifts : List Shift) (m : Matr) (r : Row) : Option Matr :=
  shifts.foldlM
    (fun m sh => do
      let e ← availEntry r sh.day sh.start sh.stop
      dictSetNested m (rowStudent r) (sidOf sh) e)
    m

/-- The matrix-building part of `load_input_from_excel`, parameterized by
the shift catalog: initialize one empty inner dict per (deduplicated)
student, then run the per-row loop over all rows. -/
def buildMatrixWith (shifts : List Shift) (rows : List Row) : Option Matr :=
  rows.foldlM (applyRow shifts) (emptyMatrix (studentsOf rows))

/-- The matrix of `load_input_from_excel` on the fixed catalog `SHIFTS`. -/
def buildMatrix (rows : List Row) : Option Matr := buildMatrixWith SHIFTS rows

/-- Constant `MAX_WEEKLY_HOURS` of `solver.py`. -/
def MAX_WEEKLY_HOURS : Nat := 20

/-- Constant `SCALE` of `solver.py`: 15-minute granularity, 4 ticks per hour. -/
def SCALE : Nat := 4

/-- Flag `ENFORCE_MAX_SHIFTS_PER_DAY` of `solver.py` (default off). -/
def ENFORCE_MAX_SHIFTS_PER_DAY : Bool := false

/-- Constant `MAX_SHIFTS_PER_DAY` of `solver.py`. -/
def MAX_SHIFTS_PER_DAY : Nat := 2

/-- Flag `ENFORCE_MAX_DAILY_HOURS` of `solver.py` (default off). -/
def ENFORCE_MAX_DAILY_HOURS : Bool := false

/-- Constant `MAX_DAILY_HOURS` of `solver.py`. -/
def MAX_DAILY_HOURS : Nat := 8

/-- The table `shift_lengths`: `int(round((end - start) * SCALE))` per shift. -/
def shiftLength (sh : Shift) : Int := pyRound ((sh.stop - sh.start) * (SCALE : Rat))

/-- A valuation of the model's variables: the boolean assignment variables
`x[(sid, s)]`, the per-student integer load variables `total_hours[s]`,
and the scalar variables `max_h` and `min_h`. -/
structure ModelValuation where
  x : ShiftId → String → Bool
  tot : String → Int
  maxH : Int
  minH : Int

/-- The 0/1 value of a boolean variable inside a linear expression. -/
def indicator (b : Bool) : Int := if b then 1 else 0

/-- The sum `sum(x[(sid, s)] for s in students)`. -/
def sumAssigned (students : List String) (v : ModelValuation) (sid : ShiftId) : Int :=
  (students.map (fun s => indicator (v.x sid s))).sum

/-- The coverage constraints (one `model.Add(... == required)` per shift). -/
def coverageCons (shifts : List Shift) (students : List String) (v : ModelValuation) : Bool :=
  shifts.all (fun sh => sumAssigned students v (sidOf sh) == (sh.required : Int))

/-- The availability constraints: for every pair with
`availability_matrix.get(s, {}).get(sid, 0) == 0`, `model.Add(x == 0)`.
The availability matrix is passed as a total function, the two `.get`
defaults folded in. -/
def availabilityCons (shifts : List Shift) (students : List String)
    (avail : String → ShiftId → Nat) (v : ModelValuation) : Bool :=
  shifts.all (fun sh => students.all (fun s =>
    if avail s (sidOf sh) == 0 then v.x (sidOf sh) s == false else true))

/-- The sum `sum(x[(sid, s)] * shift_lengths[sid] for ...)`: the scaled weekly
load of one student under a valuation. -/
def scaledLoad (shifts : List Shift) (v : ModelValuation) (s : String) : Int :=
  (shifts.map (fun sh => indicator (v.x (sidOf sh) s) * shiftLength sh)).sum

/-- The weekly hour limit constraints
(`model.Add(total_hours_scaled <= MAX_WEEKLY_HOURS * SCALE)`). -/
def weeklyCons (shifts : List Shift) (students : List String) (v : ModelValuation) : Bool :=
  students.all (fun s =>
    decide (scaledLoad shifts v s ≤ ((MAX_WEEKLY_HOURS * SCALE : Nat) : Int)))

/-- The distinct days of the catalog in first-occurrence order (the key
set of the `by_day` dicts built with `setdefault`). -/
def daysOf (shifts : List Shift) : List String :=
  shifts.foldl (fun acc sh => if acc.contains sh.day then acc else acc ++ [sh.day]) []

/-- The optional at-most-K-shifts-per-day constraints of `solver.py`. -/
def maxShiftsPerDayCons (shifts : List Shift) (students : List String)
    (v : ModelValuation) : Bool :=
  students.all (fun s => (daysOf shifts).all (fun d =>
    decide ((((shifts.filter (fun sh => sh.day == d)).map
      (fun sh => indicator (v.x (sidOf sh) s))).sum)
        ≤ ((MAX_SHIFTS_PER_DAY : Nat) : Int))))

/-- The optional max-daily-hours constraints of `solver.py`. -/
def maxDailyHoursCons (shifts : List Shift) (students : List String)
    (v : ModelValuation) : Bool :=
  students.all (fun s => (daysOf shifts).all (fun d =>
    decide ((((shifts.filter (fun sh => sh.day == d)).map
      (fun sh => indicator (v.x (sidOf sh) s) * shiftLength sh)).sum)
        ≤ ((MAX_DAILY_HOURS * SCALE : Nat) : Int))))

/-- The per-student load variables: bounds `NewIntVar(0,
MAX_WEEKLY_HOURS * SCALE, ...)` and the equality
`model.Add(total_hours[s] == sum(x * length))`. -/
def totalHoursCons (shifts : List Shift) (students : List String) (v : ModelValuation) : Bool :=
  students.all (fun s =>
    decide (0 ≤ v.tot s) &&
    decide (v.tot s ≤ ((MAX_WEEKLY_HOURS * SCALE : Nat) : Int)) &&
    (v.tot s == scaledLoad shifts v s))

/-- Maximum of a list of integers (`AddMaxEquality` target), `none` for
the empty list. -/
def listMax : List Int → Option Int
  | [] => none
  | h :: t => some (t.foldl max h)

/-- Minimum of a list of integers (`AddMinEquality` target), `none` for
the empty list. -/
def listMin : List Int → Option Int
  | [] => none
  | h :: t => some (t.foldl min h)

/-- The `max_h` / `min_h` variables: bounds of their `NewIntVar(0,
MAX_WEEKLY_HOURS * SCALE, ...)` declarations and the
`AddMaxEquality`/`AddMinEquality` constraints over
`list(total_hours.values())`. -/
def maxMinCons (students : List String) (v : ModelValuation) : Bool :=
  (listMax (students.map v.tot) == some v.maxH) &&
  (listMin (students.map v.tot) == some v.minH) &&
  decide (0 ≤ v.maxH) && decide (v.maxH ≤ ((MAX_WEEKLY_HOURS * SCALE : Nat) : Int)) &&
  decide (0 ≤ v.minH) && decide (v.minH ≤ ((MAX_WEEKLY_HOURS * SCALE : Nat) : Int))

/-- A valuation satisfies the model built by `solver.py` iff it satisfies
every constraint the script adds (the optional per-day constraints only
when their flags are on). -/
def modelSat (shifts : List Shift) (students : List String)
    (avail : String → ShiftId → Nat) (v : ModelValuation) : Bool :=
  coverageCons shifts students v &&
  availabilityCons shifts students avail v &&
  weeklyCons shifts students v &&
  (!ENFORCE_MAX_SHIFTS_PER_DAY || maxShiftsPerDayCons shifts students v) &&
  (!ENFORCE_MAX_DAILY_HOURS || maxDailyHoursCons shifts students v) &&
  totalHoursCons shifts students v &&
  maxMinCons students v

/-- The expression handed to `model.Minimize`: `max_h - min_h`. -/
def objectiveVal (v : ModelValuation) : Int := v.maxH - v.minH

/-- The key list of the decision-variable dict `x`: the full cross
product, shifts outer, students inner. -/
def varIndexList (shifts : List Shift) (students : List String) :
    List (ShiftId × String) :=
  shifts.flatMap (fun sh => students.map (fun s => (sidOf sh, s)))

/-- The terminal statuses the CP-SAT solve can report. -/
inductive CpStatus where
  | optimal
  | feasible
  | infeasible
  | model_invalid
  | unknown
deriving DecidableEq, Repr

/-- The report branch of `solver.py`: a roster is printed only for
`status in (cp_model.OPTIMAL, cp_model.FEASIBLE)`; every other status
prints `"No feasible schedule found."`. -/
def reportsRoster : CpStatus → Bool
  | CpStatus.optimal => true
  | CpStatus.feasible => true
  | _ => false

/-! ### Shared lemmas -/

theorem sum_indicator_eq_filter_length (l : List String) (p : String → Bool) :
    (l.map (fun a => indicator (p a))).sum = ((l.filter p).length : Int) := by
  induction l with
  | nil => simp
  | cons a t ih =>
    simp only [indicator] at ih
    by_cases h : p a = true
    · simp [h, indicator, List.filter_cons, ih, add_comm]
    · simp [h, indicator, List.filter_cons, ih]

theorem modelSat_parts {shifts : List Shift} {students : List String}
    {avail : String → ShiftId → Nat} {v : ModelValuation}
    (h : modelSat shifts students avail v = true) :
    coverageCons shifts students v = true ∧
    availabilityCons shifts students avail v = true ∧
    weeklyCons shifts students v = true ∧
    totalHoursCons shifts students v = true ∧
    maxMinCons students v = true := by
  rw [modelSat] at h
  simp only [Bool.and_eq_true] at h
  exact ⟨h.1.1.1.1.1.1, h.1.1.1.1.1.2, h.1.1.1.1.2, h.1.2, h.2⟩

/-! ### Witness fixtures: a one-shift, one-student instance and a full
assignment satisfying the model. -/

def shift1 : Shift := ⟨"S1", "Mon", 9, 12, 1⟩

def shifts1 : List Shift := [shift1]

def students1 : List String := ["A"]

def avail1 : String → ShiftId → Nat := fun _ _ => 1

def v1 : ModelValuation := ⟨fun _ _ => true, fun _ => 12, 12, 12⟩

/-! ### Claims -/

/-- C1: in every solution of the model, for every shift of the catalog the
number of assigned people equals that shift's required headcount exactly,
because the coverage constraint sums the shift's assignment variables over
all people and equates the sum to the headcount. -/
theorem C1_coverage_exact (shifts : List Shift) (students : List String)
    (avail : String → ShiftId → Nat) (v : ModelValuation)
    (h : modelSat shifts students avail v = true) :
    ∀ sh ∈ shifts,
      ((students.filter (fun s => v.x (sidOf sh) s)).length : Int) =
        (sh.required : Int) := by
  intro sh hsh
  have hcov := (modelSat_parts h).1
  rw [coverageCons, List.all_eq_true] at hcov
  have hsum : sumAssigned students v (sidOf sh) = (sh.required : Int) := by
    have := hcov sh hsh
    simpa using this
  rw [← hsum, sumAssigned, sum_indicator_eq_filter_length]

/-- Witness for C1 on the concrete one-shift instance. -/
theorem C1_coverage_exact_w :
    ((students1.filter (fun s => v1.x (sidOf shift1) s)).length : Int) =
      (shift1.required : Int) :=
  C1_coverage_exact shifts1 students1 avail1 v1 (by with_unfolding_all rfl)
    shift1 (List.mem_singleton.mpr rfl)

/-- C5: in every solution of the model, every person's scaled weekly load
(quarter-hour ticks, 4 per hour) is at most the weekly cap times the
scale, which with the default 20-hour cap is 80 ticks. -/
theorem C5_weekly_cap (shifts : List Shift) (students : List String)
    (avail : String → ShiftId → Nat) (v : ModelValuation)
    (h : modelSat shifts students avail v = true) :
    (∀ s ∈ students,
      scaledLoad shifts v s ≤ ((MAX_WEEKLY_HOURS * SCALE : Nat) : Int)) ∧
    MAX_WEEKLY_HOURS * SCALE = 80 := by
  constructor
  · intro s hs
    have hw := (modelSat_parts h).2.2.1
    rw [weeklyCons, List.all_eq_true] at hw
    have := hw s hs
    simpa using this
  · rfl

/-- Witness for C5 on the concrete one-shift instance. -/
theorem C5_weekly_cap_w :
    scaledLoad shifts1 v1 "A" ≤ ((MAX_WEEKLY_HOURS * SCALE : Nat) : Int) :=
  (C5_weekly_cap shifts1 students1 avail1 v1 (by with_unfolding_all rfl)).1
    "A" (List.mem_singleton.mpr rfl)

/-- C4: a person is available for a shift `[s, e)` on a day iff at least
one single parsed free interval `(a, b)` of that day satisfies `a ≤ s` and
`e ≤ b`; a partially covering interval, or two disjoint intervals that
jointly cover the shift, never yield availability (checked on the spec's
own examples: shift `[7.25, 9)` is available under `[7, 12)` but not under
`[7.5, 9)` nor under the pair `[7, 8), [8, 9)`). -/
theorem C4_single_interval_containment :
    (∀ (parsed : List (Rat × Rat)) (s e : Rat),
      is_available parsed s e = true ↔ ∃ ab ∈ parsed, ab.1 ≤ s ∧ e ≤ ab.2) ∧
    is_available [(7, 12)] 7.25 9 = true ∧
    is_available [(7.5, 9)] 7.25 9 = false ∧
    is_available [(7, 8), (8, 9)] 7.25 9 = false := by
  refine ⟨?_, ?_, ?_, ?_⟩
  · intro parsed s e
    simp [is_available, List.any_eq_true]
  · with_unfolding_all rfl
  · with_unfolding_all rfl
  · with_unfolding_all rfl

/-- C2: the model's decision-variable dict holds one boolean variable for
every (shift, person) pair of the full cross product, and the availability
constraints force every pair whose availability entry is 0 to value 0, so
in every solution every assigned pair has availability 1 (availability
entries are `int(bool)`, hence 0 or 1). -/
theorem C2_cross_product_availability (shifts : List Shift)
    (students : List String) (avail : String → ShiftId → Nat)
    (v : ModelValuation) :
    (∀ sh ∈ shifts, ∀ s ∈ students,
      (sidOf sh, s) ∈ varIndexList shifts students) ∧
    ((∀ s sid, avail s sid = 0 ∨ avail s sid = 1) →
      modelSat shifts students avail v = true →
      ∀ sh ∈ shifts, ∀ s ∈ students,
        v.x (sidOf sh) s = true → avail s (sidOf sh) = 1) := by
  constructor
  · intro sh hsh s hs
    exact List.mem_flatMap.mpr ⟨sh, hsh, List.mem_map.mpr ⟨s, hs, rfl⟩⟩
  · intro hA h sh hsh s hs hx
    have hav := (modelSat_parts h).2.1
    rw [availabilityCons, List.all_eq_true] at hav
    have h1 := hav sh hsh
    rw [List.all_eq_true] at h1
    have h2 := h1 s hs
    rcases hA s (sidOf sh) with h0 | h0
    · exfalso
      simp only [h0] at h2
      simp at h2
      rw [h2] at hx
      exact Bool.false_ne_true hx
    · exact h0

/-- Witness for C2 on the concrete one-shift instance. -/
theorem C2_cross_product_availability_w :
    (sidOf shift1, "A") ∈ varIndexList shifts1 students1 ∧
    avail1 "A" (sidOf shift1) = 1 :=
  ⟨(C2_cross_product_availability shifts1 students1 avail1 v1).1
      shift1 (List.mem_singleton.mpr rfl) "A" (List.mem_singleton.mpr rfl),
   (C2_cross_product_availability shifts1 students1 avail1 v1).2
      (fun _ _ => Or.inr rfl) (by with_unfolding_all rfl)
      shift1 (List.mem_singleton.mpr rfl) "A" (List.mem_singleton.mpr rfl)
      rfl⟩

/-- C3: in every solution of the model, each person's load variable equals
their summed scaled load and is bounded to `[0, cap * unit]`, `max_h` and
`min_h` equal the maximum and minimum of the load variables (hence of the
actual scaled loads), and the minimized objective expression is exactly
`max_h - min_h` — no other objective term exists. -/
theorem C3_minimax_objective (shifts : List Shift) (students : List String)
    (avail : String → ShiftId → Nat) (v : ModelValuation)
    (h : modelSat shifts students avail v = true) :
    (∀ s ∈ students,
      v.tot s = scaledLoad shifts v s ∧
      0 ≤ v.tot s ∧ v.tot s ≤ ((MAX_WEEKLY_HOURS * SCALE : Nat) : Int)) ∧
    listMax (students.map (fun s => scaledLoad shifts v s)) = some v.maxH ∧
    listMin (students.map (fun s => scaledLoad shifts v s)) = some v.minH ∧
    objectiveVal v = v.maxH - v.minH := by
  have htot := (modelSat_parts h).2.2.2.1
  rw [totalHoursCons, List.all_eq_true] at htot
  have hth : ∀ s ∈ students,
      v.tot s = scaledLoad shifts v s ∧
      0 ≤ v.tot s ∧ v.tot s ≤ ((MAX_WEEKLY_HOURS * SCALE : Nat) : Int) := by
    intro s hs
    have := htot s hs
    simp only [Bool.and_eq_true, decide_eq_true_eq, beq_iff_eq] at this
    exact ⟨this.2, this.1.1, this.1.2⟩
  have hmap : students.map v.tot = students.map (fun s => scaledLoad shifts v s) :=
    List.map_congr_left (fun s hs => (hth s hs).1)
  have hmm := (modelSat_parts h).2.2.2.2
  rw [maxMinCons] at hmm
  simp only [Bool.and_eq_true, beq_iff_eq, decide_eq_true_eq] at hmm
  refine ⟨hth, ?_, ?_, rfl⟩
  · rw [← hmap]
    exact hmm.1.1.1.1.1
  · rw [← hmap]
    exact hmm.1.1.1.1.2

/-- Witness for C3 on the concrete one-shift instance. -/
theorem C3_minimax_objective_w :
    listMax (students1.map (fun s => scaledLoad shifts1 v1 s)) = some v1.maxH ∧
    objectiveVal v1 = v1.maxH - v1.minH :=
  ⟨(C3_minimax_objective shifts1 students1 avail1 v1
      (by with_unfolding_all rfl)).2.1,
   (C3_minimax_objective shifts1 students1 avail1 v1
      (by with_unfolding_all rfl)).2.2.2⟩

theorem list_sum_map_add (l : List Shift) (f g : Shift → Int) :
    (l.map (fun b => f b + g b)).sum = (l.map f).sum + (l.map g).sum := by
  induction l with
  | nil => simp
  | cons b t ih =>
    simp only [List.map_cons, List.sum_cons, ih]
    ring

theorem list_sum_swap (l1 : List String) (l2 : List Shift)
    (f : String → Shift → Int) :
    (l1.map (fun a => (l2.map (fun b => f a b)).sum)).sum =
      (l2.map (fun b => (l1.map (fun a => f a b)).sum)).sum := by
  induction l1 with
  | nil => simp
  | cons a t ih =>
    simp only [List.map_cons, List.sum_cons, ih]
    rw [← list_sum_map_add]

theorem list_sum_le_length_mul (l : List String) (f : String → Int) (c : Int)
    (h : ∀ a ∈ l, f a ≤ c) :
    (l.map f).sum ≤ (l.length : Int) * c := by
  induction l with
  | nil => simp
  | cons a t ih =>
    simp only [List.map_cons, List.sum_cons, List.length_cons]
    have h1 := h a (List.mem_cons_self a t)
    have h2 := ih (fun x hx => h x (List.mem_cons_of_mem a hx))
    push_cast
    linarith

/-- C9: when the total demand in ticks (sum over shifts of headcount times
scaled duration) exceeds the number of people times the weekly cap in
ticks, no assignment satisfies the coverage equalities together with the
weekly caps, so the whole model is unsatisfiable, and the report branch
prints no roster for an infeasible status. -/
theorem C9_excess_demand_infeasible (shifts : List Shift)
    (students : List String) (avail : String → ShiftId → Nat)
    (v : ModelValuation)
    (hdem : (students.length : Int) * ((MAX_WEEKLY_HOURS * SCALE : Nat) : Int) <
      (shifts.map (fun sh => shiftLength sh * (sh.required : Int))).sum) :
    ¬(coverageCons shifts students v = true ∧
      weeklyCons shifts students v = true) ∧
    modelSat shifts students avail v = false ∧
    reportsRoster CpStatus.infeasible = false := by
  have hnc : ¬(coverageCons shifts students v = true ∧
      weeklyCons shifts students v = true) := by
    rintro ⟨hcov, hweek⟩
    rw [coverageCons, List.all_eq_true] at hcov
    rw [weeklyCons, List.all_eq_true] at hweek
    have key : (students.map (fun s => scaledLoad shifts v s)).sum =
        (shifts.map (fun sh => shiftLength sh * (sh.required : Int))).sum := by
      simp only [scaledLoad]
      rw [list_sum_swap]
      congr 1
      apply List.map_congr_left
      intro sh hsh
      rw [List.sum_map_mul_right]
      have hc : sumAssigned students v (sidOf sh) = (sh.required : Int) := by
        have := hcov sh hsh
        simpa using this
      rw [sumAssigned] at hc
      rw [hc]
      ring
    have bound : (students.map (fun s => scaledLoad shifts v s)).sum ≤
        (students.length : Int) * ((MAX_WEEKLY_HOURS * SCALE : Nat) : Int) := by
      apply list_sum_le_length_mul
      intro s hs
      have := hweek s hs
      simpa using this
    rw [key] at bound
    exact absurd bound (not_le.mpr hdem)
  refine ⟨hnc, ?_, rfl⟩
  cases hms : modelSat shifts students avail v with
  | false => rfl
  | true =>
    exact absurd ⟨(modelSat_parts hms).1, (modelSat_parts hms).2.2.1⟩ hnc

/-- A one-shift instance whose demand (84 ticks) exceeds one person times
the cap (80 ticks). -/
def shifts9 : List Shift := [⟨"S1", "Mon", 0, 21, 1⟩]

/-- Witness for C9 on the concrete overloaded instance. -/
theorem C9_excess_demand_infeasible_w :
    modelSat shifts9 students1 avail1 v1 = false ∧
    reportsRoster CpStatus.infeasible = false :=
  ⟨(C9_excess_demand_infeasible shifts9 students1 avail1 v1
      (of_decide_eq_true (by with_unfolding_all rfl))).2.1,
   (C9_excess_demand_infeasible shifts9 students1 avail1 v1
      (of_decide_eq_true (by with_unfolding_all rfl))).2.2⟩

/-- C10: a weekday column that is entirely absent from the table raises no
error: `row.get(col, "")` yields the empty-string default, whose parse is
the empty interval list, so every availability entry of that day is 0. -/
theorem C10_missing_column_defaults (r : Row) (d : String)
    (h : r.cells.find? (fun p => p.1 == dayCol d) = none) :
    rowGet r (dayCol d) = Cell.str "" ∧
    _parse_ranges (Cell.str "") = some [] ∧
    ∀ start stop, availEntry r d start stop = some 0 := by
  have h1 : rowGet r (dayCol d) = Cell.str "" := by rw [rowGet, h]
  have h2 : _parse_ranges (Cell.str "") = some [] := by with_unfolding_all rfl
  refine ⟨h1, h2, ?_⟩
  intro start stop
  rw [availEntry, h1, h2]
  simp [is_available]

/-- A row with no weekday columns at all. -/
def row10 : Row := ⟨some "Bob", []⟩

/-- Witness for C10 on a row with no weekday columns. -/
theorem C10_missing_column_defaults_w :
    availEntry row10 "Mon" 7.25 9 = some 0 :=
  (C10_missing_column_defaults row10 "Mon" rfl).2.2 7.25 9

/-- C6 counterexample: the cell `["07:15 - 09:00"]` parses as a structured
list and its single item has the separator, but its endpoints are not
valid `HH:MM:SS` times, so `_parse_ranges` raises an uncaught `ValueError`
from `strptime` (modelled `none`) instead of yielding the empty interval
set — refuting both "yields an empty interval set" and "never raises a
hard error". -/
theorem C6_cex :
    _parse_ranges (Cell.str "[\"07:15 - 09:00\"]") = none ∧
    _parse_ranges (Cell.str "[\"07:15 - 09:00\"]") ≠ some [] := by
  have h : _parse_ranges (Cell.str "[\"07:15 - 09:00\"]") = none := by
    with_unfolding_all rfl
  exact ⟨h, by rw [h]; exact fun hc => Option.noConfusion hc⟩

/-- C6 (amended): a non-string cell, or a cell whose content fails to
parse as a structured list, yields an empty interval set without error; a
list item that is not a string or lacks the `-` separator is merely
skipped (remaining items still contribute); but an item with the separator
whose endpoints fail `HH:MM:SS` parsing raises an uncaught error. -/
theorem C6_degrade_amended (s : String) (it : PyItem) (rest : List PyItem)
    (acc : List (Rat × Rat)) :
    (literalEvalApprox s = none → _parse_ranges (Cell.str s) = some []) ∧
    _parse_ranges Cell.nonstr = some [] ∧
    (skippedItem it = true →
      parseItemsAux acc (it :: rest) = parseItemsAux acc rest) ∧
    (_hhmm_to_float "07:15" = none ∧
      _parse_ranges (Cell.str "[\"07:15 - 09:00\"]") = none) := by
  refine ⟨?_, rfl, ?_, by with_unfolding_all rfl, by with_unfolding_all rfl⟩
  · intro h
    simp [_parse_ranges, h]
  · intro hsk
    cases it with
    | pother => rfl
    | pstr rng =>
      have hc : rng.contains '-' = false := by
        simpa [skippedItem] using hsk
      simp [parseItemsAux, hc]

/-- Witness for C6 (amended) on a cell that is not a list literal. -/
theorem C6_degrade_amended_w :
    literalEvalApprox "garbage" = none ∧
    _parse_ranges (Cell.str "garbage") = some [] ∧
    parseItemsAux [] [PyItem.pother] = parseItemsAux [] [] := by
  have h : literalEvalApprox "garbage" = none := by with_unfolding_all rfl
  exact ⟨h,
    (C6_degrade_amended "garbage" PyItem.pother [] []).1 h,
    (C6_degrade_amended "garbage" PyItem.pother [] []).2.2.1 rfl⟩

/-- C7 counterexample: the cell `["x", "07:15:00 - 09:00:00"]` contains an
item missing the `-` separator, yet the parsed interval set for the day is
`[(7.25, 9.0)]`, not empty — the malformed item is skipped and the
well-formed item still contributes. -/
theorem C7_cex :
    _parse_ranges (Cell.str "[\"x\", \"07:15:00 - 09:00:00\"]") =
      some [(7.25, 9)] ∧
    _parse_ranges (Cell.str "[\"x\", \"07:15:00 - 09:00:00\"]") ≠ some [] := by
  have h : _parse_ranges (Cell.str "[\"x\", \"07:15:00 - 09:00:00\"]") =
      some [(7.25, 9)] := by with_unfolding_all rfl
  refine ⟨h, ?_⟩
  rw [h]
  intro hc
  have := Option.some.inj hc
  exact List.noConfusion this

theorem parseItemsAux_some_length (items : List PyItem) :
    ∀ (acc out : List (Rat × Rat)), parseItemsAux acc items = some out →
      acc.length ≤ out.length ∧
      (out.length ≤ acc.length → items.all skippedItem = true) := by
  induction items with
  | nil =>
    intro acc out h
    simp only [parseItemsAux, Option.some.injEq] at h
    subst h
    exact ⟨Nat.le_refl _, fun _ => rfl⟩
  | cons it rest ih =>
    intro acc out h
    cases it with
    | pother =>
      have heq : parseItemsAux acc (PyItem.pother :: rest) =
          parseItemsAux acc rest := rfl
      rw [heq] at h
      obtain ⟨h1, h2⟩ := ih acc out h
      refine ⟨h1, fun hle => ?_⟩
      simp [List.all_cons, skippedItem, h2 hle]
    | pstr rng =>
      by_cases hc : rng.contains '-' = true
      · have heq : parseItemsAux acc (PyItem.pstr rng :: rest) =
            match rng.splitOn "-" with
            | [] => none
            | hd :: tl =>
              match _hhmm_to_float hd,
                  _hhmm_to_float (String.intercalate "-" tl) with
              | some a, some b => parseItemsAux (acc ++ [(a, b)]) rest
              | _, _ => none := by
          simp [parseItemsAux, hc]
        rw [heq] at h
        cases hsp : rng.splitOn "-" with
        | nil => rw [hsp] at h; exact Option.noConfusion h
        | cons hd tl =>
          rw [hsp] at h
          replace h : (match _hhmm_to_float hd,
              _hhmm_to_float (String.intercalate "-" tl) with
            | some a, some b => parseItemsAux (acc ++ [(a, b)]) rest
            | _, _ => none) = some out := h
          cases hfa : _hhmm_to_float hd with
          | none =>
            cases hfb : _hhmm_to_float (String.intercalate "-" tl) with
            | none => rw [hfa, hfb] at h; exact Option.noConfusion h
            | some b => rw [hfa, hfb] at h; exact Option.noConfusion h
          | some a =>
            cases hfb : _hhmm_to_float (String.intercalate "-" tl) with
            | none => rw [hfa, hfb] at h; exact Option.noConfusion h
            | some b =>
              rw [hfa, hfb] at h
              replace h : parseItemsAux (acc ++ [(a, b)]) rest = some out := h
              obtain ⟨h1, _⟩ := ih (acc ++ [(a, b)]) out h
              have hlen : acc.length + 1 ≤ out.length := by
                simpa using h1
              exact ⟨by omega, fun hle => absurd hlen (by omega)⟩
      · have hc2 : rng.contains '-' = false := by simpa using hc
        have heq : parseItemsAux acc (PyItem.pstr rng :: rest) =
            parseItemsAux acc rest := by
          simp [parseItemsAux, hc2]
        rw [heq] at h
        obtain ⟨h1, h2⟩ := ih acc out h
        refine ⟨h1, fun hle => ?_⟩
        simp [List.all_cons, skippedItem, hc2, h2 hle]

/-- C7 (amended): an item missing the `-` separator is skipped and
contributes no interval, while the remaining items of the cell are still
processed; the item loop returns the unchanged accumulated set exactly
when every item of the parsed list is skipped — in particular the day's
set is empty if, and only if, all items were skipped (when nothing was
accumulated). The cell-level parse equals the item loop started on the
empty accumulator. -/
theorem C7_skip_amended (it : PyItem) (acc : List (Rat × Rat))
    (items : List PyItem) (s : String) :
    (skippedItem it = true →
      parseItemsAux acc (it :: items) = parseItemsAux acc items) ∧
    (items.all skippedItem = true → parseItemsAux acc items = some acc) ∧
    (∀ itemsb, literalEvalApprox s = some (PyVal.plist itemsb) →
      _parse_ranges (Cell.str s) = parseItemsAux [] itemsb) ∧
    (parseItemsAux [] items = some [] → items.all skippedItem = true) := by
  have hskip : ∀ (it2 : PyItem) (acc2 : List (Rat × Rat))
      (rest : List PyItem), skippedItem it2 = true →
      parseItemsAux acc2 (it2 :: rest) = parseItemsAux acc2 rest := by
    intro it2 acc2 rest hsk
    cases it2 with
    | pother => rfl
    | pstr rng =>
      have hc : rng.contains '-' = false := by
        simpa [skippedItem] using hsk
      simp [parseItemsAux, hc]
  refine ⟨hskip it acc items, ?_, ?_, ?_⟩
  · intro hall
    induction items with
    | nil => rfl
    | cons a t ih =>
      rw [List.all_cons, Bool.and_eq_true] at hall
      rw [hskip a acc t hall.1]
      exact ih hall.2
  · intro itemsb h
    simp [_parse_ranges, h]
  · intro h0
    exact (parseItemsAux_some_length items [] [] h0).2 (Nat.le_refl _)

/-- Witness for C7 (amended): a skipped item before a well-formed item,
and an all-skipped list recognized from its empty parse. -/
theorem C7_skip_amended_w :
    parseItemsAux [] [PyItem.pstr "x", PyItem.pother] =
      parseItemsAux [] [PyItem.pother] ∧
    parseItemsAux [] [PyItem.pother] = some [] ∧
    [PyItem.pother].all skippedItem = true :=
  ⟨(C7_skip_amended (PyItem.pstr "x") [] [PyItem.pother] "").1
      (by with_unfolding_all rfl),
   (C7_skip_amended (PyItem.pstr "x") [] [PyItem.pother] "").2.1 rfl,
   (C7_skip_amended (PyItem.pstr "x") [] [PyItem.pother] "").2.2.2 rfl⟩

theorem dictInsert_keys_overwrite {β : Type} (m : List (String × β))
    (k : String) (v : β) (h : m.any (fun p => p.1 == k) = true) :
    (dictInsert m k v).map Prod.fst = m.map Prod.fst := by
  rw [dictInsert, if_pos h, List.map_map]
  apply List.map_congr_left
  intro p _
  by_cases hb : (p.1 == k) = true
  · simp only [Function.comp, hb, if_pos]
    exact (eq_of_beq hb).symm
  · simp only [Function.comp, hb]
    simp at hb
    simp [hb]

theorem mem_keys_dictInsert {β : Type} (m : List (String × β))
    (k : String) (v : β) (n : String) :
    n ∈ (dictInsert m k v).map Prod.fst ↔ n ∈ m.map Prod.fst ∨ n = k := by
  by_cases h : m.any (fun p => p.1 == k) = true
  · rw [dictInsert_keys_overwrite m k v h]
    rw [List.any_eq_true] at h
    obtain ⟨p, hp, hpk⟩ := h
    constructor
    · exact Or.inl
    · rintro (hn | rfl)
      · exact hn
      · rw [← eq_of_beq hpk]
        exact List.mem_map.mpr ⟨p, hp, rfl⟩
  · rw [dictInsert, if_neg h, List.map_append]
    simp

theorem nodup_keys_dictInsert {β : Type} (m : List (String × β))
    (k : String) (v : β) (h : (m.map Prod.fst).Nodup) :
    ((dictInsert m k v).map Prod.fst).Nodup := by
  by_cases hany : m.any (fun p => p.1 == k) = true
  · rw [dictInsert_keys_overwrite m k v hany]
    exact h
  · rw [dictInsert, if_neg hany, List.map_append]
    rw [List.nodup_append]
    refine ⟨h, List.nodup_singleton k, ?_⟩
    intro n hn hk
    simp only [List.map_cons, List.map_nil, List.mem_singleton] at hk
    subst hk
    rw [List.any_eq_true] at hany
    apply hany
    obtain ⟨p, hp, hpn⟩ := List.mem_map.mp hn
    exact ⟨p, hp, by rw [hpn]; exact beq_self_eq_true n⟩

theorem emptyMatrix_foldl_mem (students : List String) (acc : Matr)
    (n : String) :
    n ∈ ((students.foldl (fun a s => dictInsert a s []) acc).map Prod.fst) ↔
      n ∈ acc.map Prod.fst ∨ n ∈ students := by
  induction students generalizing acc with
  | nil => simp
  | cons s t ih =>
    rw [List.foldl_cons, ih, mem_keys_dictInsert]
    simp only [List.mem_cons]
    tauto

theorem emptyMatrix_foldl_nodup (students : List String) (acc : Matr)
    (h : (acc.map Prod.fst).Nodup) :
    ((students.foldl (fun a s => dictInsert a s []) acc).map Prod.fst).Nodup := by
  induction students generalizing acc with
  | nil => exact h
  | cons s t ih =>
    rw [List.foldl_cons]
    exact ih _ (nodup_keys_dictInsert acc s [] h)

theorem dictSetNested_keys (m m' : Matr) (k1 : String) (k2 : ShiftId)
    (v : Nat) (h : dictSetNested m k1 k2 v = some m') :
    m'.map Prod.fst = m.map Prod.fst := by
  rw [dictSetNested] at h
  by_cases hany : m.any (fun p => p.1 == k1) = true
  · rw [if_pos hany] at h
    have hm := Option.some.inj h
    rw [← hm, List.map_map]
    apply List.map_congr_left
    intro p _
    by_cases hb : (p.1 == k1) = true
    · simp only [Function.comp, hb, if_pos]
      exact (eq_of_beq hb).symm
    · simp only [Function.comp, hb]
      simp at hb
      simp [hb]
  · rw [if_neg hany] at h
    exact Option.noConfusion h

theorem applyRow_keys (shifts : List Shift) (r : Row) :
    ∀ (m m' : Matr), applyRow shifts m r = some m' →
      m'.map Prod.fst = m.map Prod.fst := by
  induction shifts with
  | nil =>
    intro m m' h
    rw [applyRow, List.foldlM_nil] at h
    rw [Option.some.inj h]
  | cons sh t ih =>
    intro m m' h
    rw [applyRow, List.foldlM_cons] at h
    cases he : availEntry r sh.day sh.start sh.stop with
    | none => rw [he] at h; exact Option.noConfusion h
    | some e =>
      rw [he] at h
      simp only [Option.bind_eq_bind, Option.some_bind] at h
      cases hd : dictSetNested m (rowStudent r) (sidOf sh) e with
      | none => rw [hd] at h; exact Option.noConfusion h
      | some m2 =>
        rw [hd] at h
        simp only [Option.some_bind] at h
        have h2 := ih m2 m' h
        rw [h2, dictSetNested_keys m m2 _ _ _ hd]

theorem buildMatrix_foldl_keys (shifts : List Shift) (rows : List Row) :
    ∀ (m0 m' : Matr), rows.foldlM (applyRow shifts) m0 = some m' →
      m'.map Prod.fst = m0.map Prod.fst := by
  induction rows with
  | nil =>
    intro m0 m' h
    rw [List.foldlM_nil] at h
    rw [Option.some.inj h]
  | cons r t ih =>
    intro m0 m' h
    rw [List.foldlM_cons] at h
    cases ha : applyRow shifts m0 r with
    | none => rw [ha] at h; exact Option.noConfusion h
    | some m1 =>
      rw [ha] at h
      simp only [Option.bind_eq_bind, Option.some_bind] at h
      rw [ih m1 m' h, applyRow_keys shifts r m0 m1 ha]

/-- C8 counterexample: the raw names `"adam "` and `"ADAM"` both
normalize to `"Adam"`, yet the ingested student list keeps one entry per
input row, so `"Adam"` appears twice in it — not exactly once. -/
theorem C8_cex :
    studentsOf [⟨some "adam ", []⟩, ⟨some "ADAM", []⟩] = ["Adam", "Adam"] ∧
    (studentsOf [⟨some "adam ", []⟩, ⟨some "ADAM", []⟩]).count "Adam" ≠ 1 := by
  have h : studentsOf [⟨some "adam ", []⟩, ⟨some "ADAM", []⟩] =
      ["Adam", "Adam"] := by with_unfolding_all rfl
  refine ⟨h, ?_⟩
  rw [h]
  decide

/-- C8 (amended): names are normalized by trimming and title-casing; the
availability matrix holds exactly one entry per normalized name that
occurs among the rows (duplicate spellings collapse to one matrix key),
but the ingested student list keeps one element per raw row, so duplicate
normalized spellings appear multiple times there. -/
theorem C8_normalize_collapse (shifts : List Shift) (rows : List Row)
    (m : Matr) (h : buildMatrixWith shifts rows = some m) :
    (m.map Prod.fst).Nodup ∧
    (∀ n, n ∈ m.map Prod.fst ↔ n ∈ studentsOf rows) := by
  rw [buildMatrixWith] at h
  have hkeys := buildMatrix_foldl_keys shifts rows _ m h
  rw [emptyMatrix] at hkeys
  constructor
  · rw [hkeys]
    exact emptyMatrix_foldl_nodup _ [] (by simp)
  · intro n
    rw [hkeys, emptyMatrix_foldl_mem]
    simp

/-- Fixture for the C8 witness: one shift, one row. -/
def shiftsW : List Shift := [⟨"S1", "Mon", 7.25, 9, 3⟩]

/-- Fixture for the C8 witness: a single row with one availability cell. -/
def rowsW : List Row :=
  [⟨some "adam ", [("MONDAY", Cell.str "[\"07:15:00 - 09:00:00\"]")]⟩]

/-- Witness for C8 (amended) on a concrete one-row table. -/
theorem C8_normalize_collapse_w :
    ([("Adam", [((("Mon", 7.25, 9) : ShiftId), 1)])].map
        (Prod.fst (α := String) (β := List (ShiftId × Nat)))).Nodup ∧
    ("Adam" ∈ [("Adam", [((("Mon", 7.25, 9) : ShiftId), 1)])].map
        (Prod.fst (α := String) (β := List (ShiftId × Nat))) ↔
      "Adam" ∈ studentsOf rowsW) :=
  ⟨(C8_normalize_collapse shiftsW rowsW
      [("Adam", [((("Mon", 7.25, 9) : ShiftId), 1)])]
      (by with_unfolding_all rfl)).1,
   (C8_normalize_collapse shiftsW rowsW
      [("Adam", [((("Mon", 7.25, 9) : ShiftId), 1)])]
      (by with_unfolding_all rfl)).2 "Adam"⟩
